import Mathlib

/-!
Shallow embedding of kineticstoolkit_extensions.timeseries.ui_draw
(src/kineticstoolkit_extensions/timeseries/__init__.py).

The function is interactive: it loads an image (file or clipboard), lets the
user click points for each requested curve, optionally captures two
calibration clicks per axis, rescales pixel coordinates to real units with a
two-point linear map, and merges all curves into one TimeSeries over the
sorted, deduplicated union of the pixel time instants.

We model the interactive and platform-dependent parts (clipboard, files,
mouse clicks) as an explicit environment, so that ui_draw becomes a pure
function from its arguments and the environment to an effect trace plus
either an error or the resulting TimeSeries.  Pixel coordinates are exact
rationals; values produced by the rescale arithmetic live in FVal, an
IEEE-style extension of the rationals with infinities and NaN, so that the
unguarded division by a zero pixel span (degenerate calibration) is modelled
faithfully as non-finite propagation rather than as an error.
-/

namespace KtkExt

instance {ε α : Type} [DecidableEq ε] [DecidableEq α] : DecidableEq (Except ε α) :=
  fun x y =>
    match x, y with
    | .ok a, .ok b =>
      if h : a = b then isTrue (by rw [h])
      else isFalse (fun hc => h (by cases hc; rfl))
    | .error a, .error b =>
      if h : a = b then isTrue (by rw [h])
      else isFalse (fun hc => h (by cases hc; rfl))
    | .ok _, .error _ => isFalse (fun hc => Except.noConfusion hc)
    | .error _, .ok _ => isFalse (fun hc => Except.noConfusion hc)

/-- Addition on ℚ implemented through mkRat, so that it reduces inside the
kernel (the library operations are compiled externally and are opaque to
definitional reduction); proved equal to the library addition below. -/
def qadd (a b : ℚ) : ℚ := mkRat (a.num * b.den + b.num * a.den) (a.den * b.den)

/-- Multiplication on ℚ through mkRat; equal to the library product. -/
def qmul (a b : ℚ) : ℚ := mkRat (a.num * b.num) (a.den * b.den)

/-- Division on ℚ through mkRat; equal to the library quotient (with the
convention that division by zero gives zero). -/
def qdiv (a b : ℚ) : ℚ :=
  if b.num < 0 then mkRat (-(a.num * b.den)) (a.den * b.num.natAbs)
  else mkRat (a.num * b.den) (a.den * b.num.natAbs)

/-- Fuel-driven floor of the base-2 logarithm of a natural number; the fuel
only bounds the recursion depth, so any fuel of at least log2 n works. -/
def natLog2Aux : ℕ → ℕ → ℕ
  | 0, _ => 0
  | fuel + 1, n => if 2 ≤ n then natLog2Aux fuel (n / 2) + 1 else 0

/-- Floor of the base-2 logarithm of a natural number (0 for inputs below
2), written with structural recursion so that it reduces in the kernel. -/
def natLog2 (n : ℕ) : ℕ := natLog2Aux n n

/-- Floor of the base-2 logarithm of the positive rational n / d, given as a
numerator-denominator pair of positive naturals. -/
def floorLog2 (n d : ℕ) : ℤ :=
  let a : ℤ := (natLog2 n : ℤ) - (natLog2 d : ℤ)
  if 0 ≤ a then (if d * 2 ^ a.toNat ≤ n then a else a - 1)
  else (if d ≤ n * 2 ^ (-a).toNat then a else a - 1)

/-- Rounding of the nonnegative rational n / d to the nearest integer, with
ties going to the even integer, as IEEE round-to-nearest-even demands. -/
def roundNearestEven (n : ℤ) (d : ℕ) : ℤ :=
  let q := n / (d : ℤ)
  let r := n % (d : ℤ)
  if 2 * r < (d : ℤ) then q
  else if (d : ℤ) < 2 * r then q + 1
  else if q % 2 = 0 then q else q + 1

/-- Rounding of an exact rational to the nearest IEEE binary64 double
(round to nearest, ties to even), valid for magnitudes inside the binary64
normal range; this is how numpy float64 stores every operand and every
intermediate result of the arithmetic at source lines 202-208 and 219-221. -/
def rnd (q : ℚ) : ℚ :=
  if q = 0 then 0
  else
    let n := q.num.natAbs
    let d := q.den
    let e := floorLog2 n d
    let m : ℤ :=
      if 52 ≤ e then roundNearestEven (n : ℤ) (d * 2 ^ (e - 52).toNat)
      else roundNearestEven ((n : ℤ) * 2 ^ (52 - e).toNat) d
    let mag : ℚ :=
      if 52 ≤ e then mkRat (m * 2 ^ (e - 52).toNat) 1
      else mkRat m (2 ^ (52 - e).toNat)
    if q < 0 then -mag else mag

/-- One float64 addition: the exact sum, rounded to binary64. -/
def fadd64 (a b : ℚ) : ℚ := rnd (qadd a b)

/-- One float64 subtraction. -/
def fsub64 (a b : ℚ) : ℚ := rnd (qadd a (-b))

/-- One float64 multiplication. -/
def fmul64 (a b : ℚ) : ℚ := rnd (qmul a b)

/-- One float64 division (nonzero divisor). -/
def fdiv64 (a b : ℚ) : ℚ := rnd (qdiv a b)

/-- The two-point rescale of source lines 202-208 and 219-221 exactly as
numpy float64 computes it on finite operands: the same expression
(p - p0) * (r1 - r0) / (p1 - p0) + r0, with one binary64 rounding after
every arithmetic operation. -/
def rescale64 (p p0 p1 r0 r1 : ℚ) : ℚ :=
  fadd64 (fdiv64 (fmul64 (fsub64 p p0) (fsub64 r1 r0)) (fsub64 p1 p0)) r0

/-- Extended rational values mirroring IEEE float special values: a finite
rational, plus infinity, minus infinity, or NaN. -/
inductive FVal where
  | fin (q : ℚ)
  | inf
  | ninf
  | nan
deriving DecidableEq, Repr

namespace FVal

/-- Negation, as IEEE float negation. -/
def neg : FVal → FVal
  | fin q => fin (-q)
  | inf => ninf
  | ninf => inf
  | nan => nan

/-- Addition, as IEEE float addition (inf + (-inf) = NaN, NaN absorbs). -/
def add : FVal → FVal → FVal
  | nan, _ => nan
  | _, nan => nan
  | fin a, fin b => fin (qadd a b)
  | inf, ninf => nan
  | ninf, inf => nan
  | inf, _ => inf
  | _, inf => inf
  | ninf, _ => ninf
  | _, ninf => ninf

/-- Multiplication, as IEEE float multiplication (0 * inf = NaN). -/
def mul : FVal → FVal → FVal
  | nan, _ => nan
  | _, nan => nan
  | fin a, fin b => fin (qmul a b)
  | fin a, inf => if 0 < a then inf else if a < 0 then ninf else nan
  | inf, fin a => if 0 < a then inf else if a < 0 then ninf else nan
  | fin a, ninf => if 0 < a then ninf else if a < 0 then inf else nan
  | ninf, fin a => if 0 < a then ninf else if a < 0 then inf else nan
  | inf, inf => inf
  | inf, ninf => ninf
  | ninf, inf => ninf
  | ninf, ninf => inf

/-- Division, as IEEE float division: finite / 0 is a signed infinity (or NaN
for 0 / 0), anything / inf is 0, inf / inf is NaN. -/
def div : FVal → FVal → FVal
  | nan, _ => nan
  | _, nan => nan
  | fin a, fin b =>
    if b = 0 then (if 0 < a then inf else if a < 0 then ninf else nan)
    else fin (qdiv a b)
  | inf, fin b => if b < 0 then ninf else inf
  | ninf, fin b => if b < 0 then inf else ninf
  | fin _, inf => fin 0
  | fin _, ninf => fin 0
  | inf, inf => nan
  | inf, ninf => nan
  | ninf, inf => nan
  | ninf, ninf => nan

instance : Neg FVal := ⟨FVal.neg⟩
instance : Add FVal := ⟨FVal.add⟩
instance : Mul FVal := ⟨FVal.mul⟩
instance : Div FVal := ⟨FVal.div⟩

/-- Subtraction, as IEEE float subtraction. -/
def sub (a b : FVal) : FVal := a + (-b)

instance : Sub FVal := ⟨FVal.sub⟩

/-- Whether the value is an ordinary finite number. -/
def isFinite : FVal → Bool
  | fin _ => true
  | _ => false

/-- Strict comparison used by pythonic min and max: NaN compares false with
everything, as with IEEE floats. -/
def blt : FVal → FVal → Bool
  | fin a, fin b => a < b
  | fin _, inf => true
  | ninf, fin _ => true
  | ninf, inf => true
  | _, _ => false

/-- Pythonic min of two values (returns the second only when it compares
strictly below the first). -/
def fmin (a b : FVal) : FVal := if blt b a then b else a

/-- Pythonic max of two values. -/
def fmax (a b : FVal) : FVal := if blt a b then b else a

end FVal

/-- Two-point linear rescale, the arithmetic shape used at lines 202-208
(value axis) and 219-221 (time axis) of the source:
real = (pixel - pixel_low) * (real_high - real_low)
       / (pixel_high - pixel_low) + real_low.
On finite operands this evaluates the expression in exact rational
arithmetic (an idealisation); rescale64 above models the per-operation
binary64 rounding the program actually performs, and the two can differ by
one unit in the last place.  The IEEE special-value propagation (division
by a zero span, infinities, NaN) is shared with the program. -/
def rescale (p p0 p1 r0 r1 : FVal) : FVal :=
  (p - p0) * (r1 - r0) / (p1 - p0) + r0

/-- One mouse click, in pixel coordinates (origin top-left, y growing
downward). -/
structure Point where
  x : ℚ
  y : ℚ
deriving DecidableEq, Repr

/-- Dynamic (Python-style) argument values, needed because ui_draw accepts
either strings or lists for data_keys / data_units and validates types at
run time. -/
inductive PyVal where
  | pynone
  | pystr (s : String)
  | pyint (n : ℤ)
  | pylist (xs : List PyVal)

/-- Opaque stand-in for a loaded raster image; its contents are only ever
displayed, never computed with. -/
inductive Image where
  | mk
deriving DecidableEq, Repr

/-- Errors ui_draw can raise, one constructor per distinct Python exception
site: check_param type failures, the descriptive clipboard error, numpy
IndexError from indexing an empty point array (or a too-short units list),
and TypeError from subscripting a None range. -/
inductive DrawError where
  | invalidArgument (param : String)
  | noImage (msg : String)
  | indexError
  | noneSubscript
deriving DecidableEq, Repr

/-- Observable side effects of a call, in order: opening the matplotlib
figure, showing the image, one blocking capture session per curve, one
blocking two-click session per supplied calibration range, closing the
figure. -/
inductive Effect where
  | figureOpened
  | imageShown
  | curveCaptured (key : String)
  | calibrationCaptured
  | figureClosed
deriving DecidableEq, Repr

/-- Everything outside the function that a call can observe: the clipboard,
the file system, and the scripted user clicks (session i of plt.ginput(-1)
returns curveClicks i; the two-click calibration sessions return the given
point pairs). -/
structure Env where
  clipboard : Option Image
  files : String → Image
  curveClicks : Nat → List Point
  timeCalClicks : Point × Point
  valueCalClicks : Point × Point

/-- Model of the ktk.TimeSeries container as used here: a time axis, named
data channels, and (key, unit) info entries. -/
structure TimeSeries where
  time : List FVal
  data : List (String × List FVal)
  info : List (String × String)
deriving DecidableEq, Repr

/-- Type check of the filename argument (source lines 86-87): check_param
rejects any non-None, non-string value before anything else happens. -/
def checkFilename : PyVal → Except DrawError Unit
  | .pynone => .ok ()
  | .pystr _ => .ok ()
  | _ => .error (.invalidArgument "filename")

/-- Normalisation of data_keys (source lines 93-94): a bare string becomes a
one-element list. -/
def normKeys : PyVal → PyVal
  | .pystr s => .pylist [.pystr s]
  | v => v

/-- View of a dynamic value as a list of strings, as check_param with
contents_type=str demands. -/
def asStrList : PyVal → Option (List String)
  | .pylist xs =>
    xs.mapM (fun v => match v with | .pystr s => some s | _ => none)
  | _ => none

/-- Validation of data_keys (source lines 93-95): normalise, then require a
list of strings. -/
def checkKeys (v : PyVal) : Except DrawError (List String) :=
  match asStrList (normKeys v) with
  | some ks => .ok ks
  | none => .error (.invalidArgument "data_keys")

/-- Validation of data_units (source lines 97-100): a bare string is
replicated once per data key; None stays absent; anything else must be a
list of strings. -/
def checkUnits (v : PyVal) (keys : List String) :
    Except DrawError (Option (List String)) :=
  match v with
  | .pynone => .ok none
  | .pystr u => .ok (some (keys.map (fun _ => u)))
  | w =>
    match asStrList w with
    | some us => .ok (some us)
    | none => .error (.invalidArgument "data_units")

/-- Image acquisition (source lines 102-109): clipboard when no filename is
given, raising the descriptive TypeError when the clipboard has no image;
otherwise the named file. -/
def loadImage (filename : PyVal) (env : Env) : Except DrawError Image :=
  match filename with
  | .pynone =>
    match env.clipboard with
    | some img => .ok img
    | none => .error (.noImage "The clipboard does not contain an image.")
  | .pystr s => .ok (env.files s)
  | _ => .error (.invalidArgument "filename")

/-- Stable insertion of a point into a list sorted by ascending x. -/
def insertByX (p : Point) : List Point → List Point
  | [] => [p]
  | q :: rest => if p.x < q.x then p :: q :: rest else q :: insertByX p rest

/-- Sorting of a click sequence by ascending pixel x (the argsort at source
line 141). -/
def sortByX : List Point → List Point
  | [] => []
  | p :: rest => insertByX p (sortByX rest)

/-- One capture session (source lines 137-146): an empty click list makes
point_array 1-dimensional and the column indexing raises IndexError;
otherwise the points are sorted by x and split into a time column and a
value column with the y sign inverted. -/
def capture1 (clicks : List Point) : Except DrawError (List ℚ × List ℚ) :=
  match clicks with
  | [] => .error .indexError
  | _ =>
    .ok ((sortByX clicks).map Point.x,
      (sortByX clicks).map (fun p => -p.y))

/-- Minimum of a list of rationals, as the builtin min over a nonempty
sequence (the empty case is never reached on the success path). -/
def qListMin : List ℚ → ℚ
  | [] => 0
  | [a] => a
  | a :: b :: rest => min a (qListMin (b :: rest))

/-- Maximum of a list of rationals. -/
def qListMax : List ℚ → ℚ
  | [] => 0
  | [a] => a
  | a :: b :: rest => max a (qListMax (b :: rest))

/-- Python dict insertion semantics: an existing key keeps its position and
has its value replaced; a new key is appended. -/
def dictInsert (dict : List (String × List ℚ × List ℚ)) (k : String)
    (v : List ℚ × List ℚ) : List (String × List ℚ × List ℚ) :=
  match dict with
  | [] => [(k, v)]
  | e :: rest =>
    if e.1 = k then (e.1, v) :: rest else e :: dictInsert rest k v

/-- Accumulated capture state: the two parallel dicts of source lines
124-125 (merged into one dict of pairs), plus the running pixel extents of
source lines 112-115 and 148-160, which start at plus and minus infinity. -/
structure CapState where
  dict : List (String × List ℚ × List ℚ)
  minT : FVal
  maxT : FVal
  minV : FVal
  maxV : FVal
deriving Repr

/-- Initial capture state (source lines 112-115 and 124-125). -/
def capInit : CapState :=
  { dict := [], minT := .inf, maxT := .ninf, minV := .inf, maxV := .ninf }

/-- Capture loop over data_keys (source lines 127-160): one blocking session
per key, in order; each session stores its columns under its key (dict
overwrite on a repeated key) and extends the observed pixel extents. -/
def captureAll (script : Nat → List Point) :
    List String → Nat → CapState →
    List Effect × Except DrawError CapState
  | [], _, st => ([], .ok st)
  | k :: rest, i, st =>
    match capture1 (script i) with
    | .error e => ([.curveCaptured k], .error e)
    | .ok tv =>
      let st2 : CapState :=
        { dict := dictInsert st.dict k tv
          minT := st.minT.fmin (.fin (qListMin tv.1))
          maxT := st.maxT.fmax (.fin (qListMax tv.1))
          minV := st.minV.fmin (.fin (qListMin tv.2))
          maxV := st.maxV.fmax (.fin (qListMax tv.2)) }
      let rec2 := captureAll script rest (i + 1) st2
      (.curveCaptured k :: rec2.1, rec2.2)

/-- Calibration effects: plt.ginput(2) runs once per supplied range (source
lines 162-186). -/
def calEffects (time_range value_range : Option (ℚ × ℚ)) : List Effect :=
  (if time_range.isSome then [Effect.calibrationCaptured] else []) ++
    (if value_range.isSome then [Effect.calibrationCaptured] else [])

/-- Pixel positions calibrating the time axis (source lines 162-172): the
two clicked x coordinates sorted ascending when a time range was supplied,
else the observed extent accumulated during capture. -/
def timeCalPixels (time_range : Option (ℚ × ℚ)) (clicks : Point × Point)
    (st : CapState) : FVal × FVal :=
  match time_range with
  | some _ => (.fin (min clicks.1.x clicks.2.x), .fin (max clicks.1.x clicks.2.x))
  | none => (st.minT, st.maxT)

/-- Pixel positions calibrating the value axis (source lines 174-186): the
two clicked y coordinates, sign-inverted, sorted ascending when a value
range was supplied, else the observed extent. -/
def valueCalPixels (value_range : Option (ℚ × ℚ)) (clicks : Point × Point)
    (st : CapState) : FVal × FVal :=
  match value_range with
  | some _ =>
    (.fin (min (-clicks.1.y) (-clicks.2.y)), .fin (max (-clicks.1.y) (-clicks.2.y)))
  | none => (st.minV, st.maxV)

/-- Insertion into a strictly ascending list, dropping the element when it
is already present. -/
def insertDedup (x : ℚ) : List ℚ → List ℚ
  | [] => [x]
  | y :: rest =>
    if x < y then x :: y :: rest
    else if x = y then y :: rest
    else y :: insertDedup x rest

/-- Sorted duplicate-free version of a list, modelling sorted(list(set(l)))
at source line 195. -/
def dedupSort (l : List ℚ) : List ℚ := l.foldr insertDedup []

/-- Concatenation of the time columns of every dict entry (the set union
loop at source lines 191-193 before deduplication). -/
def allTimes : List (String × List ℚ × List ℚ) → List ℚ
  | [] => []
  | e :: rest => e.2.1 ++ allTimes rest

/-- Value-axis rescale of one pixel value (source lines 202-208). -/
def scaleValue (vr : ℚ × ℚ) (vcal : FVal × FVal) (v : ℚ) : FVal :=
  rescale (.fin v) vcal.1 vcal.2 (.fin vr.1) (.fin vr.2)

/-- Linear interpolation between two samples, in float arithmetic. -/
def lerpF (t t0 t1 : ℚ) (v0 v1 : FVal) : FVal :=
  v0 + (FVal.fin t - FVal.fin t0) * (v1 - v0) / (FVal.fin t1 - FVal.fin t0)

/-- Linear interpolation of a sampled signal at one query time: exact sample
values at sample instants, linear interpolation between neighbours, NaN
outside the sampled range.  Models the resampling step of the external
container merge (the merge contract of the spec, treated as a black box). -/
def interp1 : List (ℚ × FVal) → ℚ → FVal
  | [], _ => .nan
  | [e], t => if t = e.1 then e.2 else .nan
  | e0 :: e1 :: rest, t =>
    if t < e0.1 then .nan
    else if t = e0.1 then e0.2
    else if t < e1.1 then lerpF t e0.1 e1.1 e0.2 e1.2
    else interp1 (e1 :: rest) t

/-- Resampling of one curve onto the shared time base by interpolation. -/
def resampleOnto (newTime : List ℚ) (pairs : List (ℚ × FVal)) : List FVal :=
  newTime.map (interp1 pairs)

/-- Unit metadata attached while merging curve number i (source lines
212-213): data_units[i] when units were supplied, raising IndexError when
the units list is too short; nothing otherwise. -/
def infoFor (units : Option (List String)) (i : Nat) (k : String) :
    Except DrawError (List (String × String)) :=
  match units with
  | none => .ok []
  | some us =>
    match us.get? i with
    | none => .error .indexError
    | some u => .ok [(k, u)]

/-- Merge loop over the captured dict (source lines 197-216): scale each
value column with the value calibration (subscripting a None value_range
raises TypeError), build the per-curve container, attach its unit, and merge
it into the output by resampling onto the shared time base. -/
def mergeLoop (value_range : Option (ℚ × ℚ)) (vcal : FVal × FVal)
    (units : Option (List String)) (union : List ℚ) :
    List (String × List ℚ × List ℚ) → Nat → TimeSeries →
    Except DrawError TimeSeries
  | [], _, out => .ok out
  | e :: rest, i, out =>
    match value_range with
    | none => .error .noneSubscript
    | some vr =>
      let scaled := e.2.2.map (scaleValue vr vcal)
      match infoFor units i e.1 with
      | .error err => .error err
      | .ok newInfo =>
        mergeLoop value_range vcal units union rest (i + 1)
          { out with
            data := out.data ++ [(e.1, resampleOnto union (e.2.1.zip scaled))]
            info := out.info ++ newInfo }

/-- The whole ui_draw call: parameter checks, image acquisition, per-curve
capture, calibration capture, figure closed, union time base, merge loop
with value scaling, then global time scaling (subscripting a None time_range
raises TypeError).  Returns the effect trace together with the outcome. -/
def ui_draw (filename : PyVal) (time_range value_range : Option (ℚ × ℚ))
    (data_keys data_units : PyVal) (env : Env) :
    List Effect × Except DrawError TimeSeries :=
  match checkFilename filename with
  | .error e => ([], .error e)
  | .ok _ =>
    match checkKeys data_keys with
    | .error e => ([], .error e)
    | .ok keys =>
      match checkUnits data_units keys with
      | .error e => ([], .error e)
      | .ok units =>
        match loadImage filename env with
        | .error e => ([], .error e)
        | .ok _img =>
          match captureAll env.curveClicks keys 0 capInit with
          | (capEs, .error e) =>
            (Effect.figureOpened :: Effect.imageShown :: capEs, .error e)
          | (capEs, .ok st) =>
            let es := Effect.figureOpened :: Effect.imageShown ::
              (capEs ++ calEffects time_range value_range ++ [Effect.figureClosed])
            let tcal := timeCalPixels time_range env.timeCalClicks st
            let vcal := valueCalPixels value_range env.valueCalClicks st
            let union := dedupSort (allTimes st.dict)
            let out0 : TimeSeries :=
              { time := union.map FVal.fin, data := [], info := [] }
            match mergeLoop value_range vcal units union st.dict 0 out0 with
            | .error e => (es, .error e)
            | .ok out1 =>
              match time_range with
              | none => (es, .error .noneSubscript)
              | some tr =>
                (es, .ok { out1 with
                  time := union.map (fun t =>
                    rescale (.fin t) tcal.1 tcal.2 (.fin tr.1) (.fin tr.2)) })

/-- Expected contents of the capture dicts when every session succeeds and
no key repeats: one entry per key, in order, with the session's clicks
sorted by x and split into columns. -/
def expectedCurves (script : Nat → List Point) :
    List String → Nat → List (String × List ℚ × List ℚ)
  | [], _ => []
  | k :: rest, i =>
    (k, (sortByX (script i)).map Point.x,
      (sortByX (script i)).map (fun p => -p.y)) ::
      expectedCurves script rest (i + 1)

/-- Concatenated raw pixel x coordinates of all capture sessions, one
session per requested key, in click order. -/
def sessionXs (script : Nat → List Point) : List String → Nat → List ℚ
  | [], _ => []
  | _ :: rest, i => (script i).map Point.x ++ sessionXs script rest (i + 1)

/-- Info entries produced by the merge loop when a units list is present:
curve number i carries unit us[i]. -/
def mergedInfo (us : List String) :
    Nat → List (String × List ℚ × List ℚ) → List (String × String)
  | _, [] => []
  | i, e :: rest => (e.1, us.getD i "") :: mergedInfo us (i + 1) rest

/-- Info entries produced by the merge loop, for an optional units list. -/
def mergedInfoOpt : Option (List String) → Nat →
    List (String × List ℚ × List ℚ) → List (String × String)
  | none, _, _ => []
  | some us, i, dict => mergedInfo us i dict

/-- Concrete environment exercising the model: two scripted curves (session
0 clicks x = 10, 30, 20 out of order; session 1 clicks x = 15, 25), time
calibration clicks at pixel x = 10 and 30, value calibration clicks at pixel
y = 50 and 30, an image on the clipboard, every file readable. -/
def envA : Env :=
  { clipboard := some .mk
    files := fun _ => .mk
    curveClicks := fun i =>
      if i = 0 then [⟨10, 50⟩, ⟨30, 30⟩, ⟨20, 40⟩] else [⟨15, 45⟩, ⟨25, 35⟩]
    timeCalClicks := (⟨10, 0⟩, ⟨30, 0⟩)
    valueCalClicks := (⟨0, 50⟩, ⟨0, 30⟩) }

/-- Same environment with an empty clipboard. -/
def envB : Env := { envA with clipboard := none }

/-- Same environment with the two value-axis calibration clicks at the same
pixel y (degenerate, zero-span value calibration). -/
def envC : Env := { envA with valueCalClicks := (⟨0, 40⟩, ⟨5, 40⟩) }

/-- Environment in which the second capture session receives no clicks. -/
def envD : Env :=
  { envA with curveClicks := fun i => if i = 0 then [⟨1, 1⟩] else [] }

/-- Environment whose calibration is degenerate on both axes: the two time
calibration clicks share pixel x = 7 and the two value calibration clicks
share pixel y = 40. -/
def envE : Env :=
  { envA with
    timeCalClicks := (⟨7, 0⟩, ⟨7, 2⟩)
    valueCalClicks := (⟨0, 40⟩, ⟨5, 40⟩) }


/-! ### Theorems -/

theorem qadd_eq (a b : ℚ) : qadd a b = a + b := by
  have ha : (a.den : ℚ) ≠ 0 := Nat.cast_ne_zero.mpr a.den_nz
  have hb : (b.den : ℚ) ≠ 0 := Nat.cast_ne_zero.mpr b.den_nz
  rw [qadd, Rat.mkRat_eq_div]
  conv_rhs => rw [← Rat.num_div_den a, ← Rat.num_div_den b]
  push_cast
  field_simp

theorem qmul_eq (a b : ℚ) : qmul a b = a * b := by
  have ha : (a.den : ℚ) ≠ 0 := Nat.cast_ne_zero.mpr a.den_nz
  have hb : (b.den : ℚ) ≠ 0 := Nat.cast_ne_zero.mpr b.den_nz
  rw [qmul, Rat.mkRat_eq_div]
  conv_rhs => rw [← Rat.num_div_den a, ← Rat.num_div_den b]
  push_cast
  field_simp

theorem qdiv_eq (a b : ℚ) : qdiv a b = a / b := by
  have ha : (a.den : ℚ) ≠ 0 := Nat.cast_ne_zero.mpr a.den_nz
  have hb : (b.den : ℚ) ≠ 0 := Nat.cast_ne_zero.mpr b.den_nz
  rcases lt_trichotomy b.num 0 with hneg | hzero | hpos
  · have hbq : (b.num : ℚ) ≠ 0 := by
      simp only [ne_eq, Int.cast_eq_zero]
      omega
    rw [qdiv, if_pos hneg, Rat.mkRat_eq_div]
    conv_rhs => rw [← Rat.num_div_den a, ← Rat.num_div_den b]
    push_cast
    rw [Int.cast_natAbs, Int.cast_abs,
      abs_of_neg (show (b.num : ℚ) < 0 by exact_mod_cast hneg)]
    field_simp
  · have hb0 : b = 0 := Rat.num_eq_zero.mp hzero
    subst hb0
    rw [div_zero, qdiv]
    norm_num
  · have hbq : (b.num : ℚ) ≠ 0 := by
      simp only [ne_eq, Int.cast_eq_zero]
      omega
    rw [qdiv, if_neg (by omega), Rat.mkRat_eq_div]
    conv_rhs => rw [← Rat.num_div_den a, ← Rat.num_div_den b]
    push_cast
    rw [Int.cast_natAbs, Int.cast_abs,
      abs_of_pos (show (0 : ℚ) < (b.num : ℚ) by exact_mod_cast hpos)]
    field_simp

@[simp] theorem FVal.neg_fin (a : ℚ) : -(FVal.fin a) = FVal.fin (-a) := rfl

@[simp] theorem FVal.fin_add_fin (a b : ℚ) : FVal.fin a + FVal.fin b = FVal.fin (a + b) := by
  show FVal.fin (qadd a b) = FVal.fin (a + b)
  rw [qadd_eq]

@[simp] theorem FVal.fin_sub_fin (a b : ℚ) : FVal.fin a - FVal.fin b = FVal.fin (a - b) := by
  show FVal.fin (qadd a (-b)) = FVal.fin (a - b)
  rw [qadd_eq, sub_eq_add_neg]

@[simp] theorem FVal.fin_mul_fin (a b : ℚ) : FVal.fin a * FVal.fin b = FVal.fin (a * b) := by
  show FVal.fin (qmul a b) = FVal.fin (a * b)
  rw [qmul_eq]

theorem FVal.fin_div_fin (a b : ℚ) (h : b ≠ 0) : FVal.fin a / FVal.fin b = FVal.fin (a / b) := by
  show (if b = 0 then (if 0 < a then FVal.inf else if a < 0 then FVal.ninf else FVal.nan)
    else FVal.fin (qdiv a b)) = FVal.fin (a / b)
  rw [if_neg h, qdiv_eq]

theorem FVal.fin_div_zero (a : ℚ) :
    FVal.fin a / FVal.fin 0 = if 0 < a then FVal.inf else if a < 0 then FVal.ninf else FVal.nan := by
  show (if (0 : ℚ) = 0 then (if 0 < a then FVal.inf else if a < 0 then FVal.ninf else FVal.nan)
    else FVal.fin (qdiv a 0)) = _
  rw [if_pos rfl]

theorem insertByX_perm (p : Point) (l : List Point) :
    (insertByX p l).Perm (p :: l) := by
  induction l with
  | nil => simp [insertByX]
  | cons q rest ih =>
    rw [insertByX]
    split
    · exact List.Perm.refl _
    · exact (List.Perm.cons q ih).trans (List.Perm.swap p q rest)

theorem sortByX_perm (l : List Point) : (sortByX l).Perm l := by
  induction l with
  | nil => exact List.Perm.refl _
  | cons p rest ih =>
    exact (insertByX_perm p (sortByX rest)).trans (List.Perm.cons p ih)

theorem sortByX_ne_nil {l : List Point} (h : l ≠ []) : sortByX l ≠ [] := by
  intro hc
  apply h
  have hlen := (sortByX_perm l).symm.length_eq
  rw [hc] at hlen
  simp at hlen
  exact hlen

theorem insertDedup_mem (x y : ℚ) (l : List ℚ) :
    y ∈ insertDedup x l ↔ y = x ∨ y ∈ l := by
  induction l with
  | nil => simp [insertDedup]
  | cons z rest ih =>
    rw [insertDedup]
    split
    · simp
    · split
      · rename_i h1 h2
        subst h2
        simp
      · simp [ih]
        tauto

theorem insertDedup_sorted (x : ℚ) (l : List ℚ) (h : l.Sorted (· < ·)) :
    (insertDedup x l).Sorted (· < ·) := by
  induction l with
  | nil => simp [insertDedup]
  | cons z rest ih =>
    rw [insertDedup]
    rw [List.sorted_cons] at h
    split
    · rename_i hlt
      rw [List.sorted_cons]
      constructor
      · intro b hb
        rcases List.mem_cons.mp hb with hb | hb
        · rw [hb]; exact hlt
        · exact hlt.trans (h.1 b hb)
      · rw [List.sorted_cons]
        exact h
    · split
      · rw [List.sorted_cons]
        exact h
      · rename_i h1 h2
        rw [List.sorted_cons]
        constructor
        · intro b hb
          rcases (insertDedup_mem x b rest).mp hb with hb | hb
          · rw [hb]
            rcases lt_trichotomy x z with hc | hc | hc
            · exact absurd hc h1
            · exact absurd hc h2
            · exact hc
          · exact h.1 b hb
        · exact ih h.2

theorem dedupSort_sorted (l : List ℚ) : (dedupSort l).Sorted (· < ·) := by
  induction l with
  | nil => simp [dedupSort]
  | cons x rest ih => exact insertDedup_sorted x (dedupSort rest) ih

theorem dedupSort_mem (y : ℚ) (l : List ℚ) : y ∈ dedupSort l ↔ y ∈ l := by
  induction l with
  | nil => simp [dedupSort]
  | cons x rest ih =>
    show y ∈ insertDedup x (dedupSort rest) ↔ _
    rw [insertDedup_mem, ih]
    simp

theorem dedupSort_nodup (l : List ℚ) : (dedupSort l).Nodup :=
  (dedupSort_sorted l).imp ne_of_lt

theorem dedupSort_ne_nil {l : List ℚ} (h : l ≠ []) : dedupSort l ≠ [] := by
  match l, h with
  | x :: rest, _ =>
    show insertDedup x (dedupSort rest) ≠ []
    intro hc
    have : x ∈ insertDedup x (dedupSort rest) :=
      (insertDedup_mem x x (dedupSort rest)).mpr (Or.inl rfl)
    rw [hc] at this
    exact List.not_mem_nil x this

theorem sorted_strict_ext (l1 l2 : List ℚ) (h1 : l1.Sorted (· < ·))
    (h2 : l2.Sorted (· < ·)) (hmem : ∀ x, x ∈ l1 ↔ x ∈ l2) : l1 = l2 := by
  induction l1 generalizing l2 with
  | nil =>
    cases l2 with
    | nil => rfl
    | cons b bs =>
      exact absurd ((hmem b).mpr (List.mem_cons_self b bs)) (List.not_mem_nil b)
  | cons a as ih =>
    cases l2 with
    | nil =>
      exact absurd ((hmem a).mp (List.mem_cons_self a as)) (List.not_mem_nil a)
    | cons b bs =>
      rw [List.sorted_cons] at h1 h2
      have hab : a = b := by
        rcases List.mem_cons.mp ((hmem a).mp (List.mem_cons_self a as)) with h | h
        · exact h
        · rcases List.mem_cons.mp ((hmem b).mpr (List.mem_cons_self b bs)) with h4 | h4
          · exact h4.symm
          · exact absurd (h2.1 a h) (not_lt_of_gt (h1.1 b h4))
      subst hab
      have : as = bs := by
        apply ih bs h1.2 h2.2
        intro x
        constructor
        · intro hx
          rcases List.mem_cons.mp ((hmem x).mp (List.mem_cons.mpr (Or.inr hx))) with h | h
          · exact absurd (h ▸ h1.1 x hx) (lt_irrefl a)
          · exact h
        · intro hx
          rcases List.mem_cons.mp ((hmem x).mpr (List.mem_cons.mpr (Or.inr hx))) with h | h
          · exact absurd (h ▸ h2.1 x hx) (lt_irrefl a)
          · exact h
      rw [this]

theorem FVal.notFinite_add_left (a b : FVal) (h : a.isFinite = false) :
    (a + b).isFinite = false := by
  cases a with
  | fin q => simp [FVal.isFinite] at h
  | inf => cases b <;> rfl
  | ninf => cases b <;> rfl
  | nan => cases b <;> rfl

theorem FVal.notFinite_mul_left (a b : FVal) (h : a.isFinite = false) :
    (a * b).isFinite = false := by
  cases a with
  | fin q => simp [FVal.isFinite] at h
  | inf =>
    cases b with
    | fin q =>
      show (if 0 < q then inf else if q < 0 then ninf else nan).isFinite = false
      split_ifs <;> rfl
    | inf => rfl
    | ninf => rfl
    | nan => rfl
  | ninf =>
    cases b with
    | fin q =>
      show (if 0 < q then ninf else if q < 0 then inf else nan).isFinite = false
      split_ifs <;> rfl
    | inf => rfl
    | ninf => rfl
    | nan => rfl
  | nan => cases b <;> rfl

theorem FVal.notFinite_div_left (a b : FVal) (h : a.isFinite = false) :
    (a / b).isFinite = false := by
  cases a with
  | fin q => simp [FVal.isFinite] at h
  | inf =>
    cases b with
    | fin q =>
      show (if q < 0 then ninf else inf).isFinite = false
      split_ifs <;> rfl
    | inf => rfl
    | ninf => rfl
    | nan => rfl
  | ninf =>
    cases b with
    | fin q =>
      show (if q < 0 then inf else ninf).isFinite = false
      split_ifs <;> rfl
    | inf => rfl
    | ninf => rfl
    | nan => rfl
  | nan => cases b <;> rfl

theorem rescale_degenerate (p c r0 r1 : ℚ) :
    (rescale (FVal.fin p) (FVal.fin c) (FVal.fin c)
      (FVal.fin r0) (FVal.fin r1)).isFinite = false := by
  unfold rescale
  rw [FVal.fin_sub_fin, FVal.fin_sub_fin, FVal.fin_mul_fin, FVal.fin_sub_fin,
    sub_self]
  apply FVal.notFinite_add_left
  rw [FVal.fin_div_zero]
  split_ifs <;> rfl

theorem lerpF_notFinite (t t0 t1 : ℚ) (v0 v1 : FVal) (h : v0.isFinite = false) :
    (lerpF t t0 t1 v0 v1).isFinite = false :=
  FVal.notFinite_add_left v0 _ h

theorem interp1_notFinite (l : List (ℚ × FVal)) (t : ℚ)
    (h : ∀ e ∈ l, (e.2 : FVal).isFinite = false) :
    (interp1 l t).isFinite = false := by
  induction l with
  | nil => rfl
  | cons e0 rest ih =>
    cases rest with
    | nil =>
      show (if t = e0.1 then e0.2 else FVal.nan).isFinite = false
      split_ifs
      · exact h e0 (List.mem_cons_self _ _)
      · rfl
    | cons e1 rest2 =>
      show (if t < e0.1 then FVal.nan else if t = e0.1 then e0.2
        else if t < e1.1 then lerpF t e0.1 e1.1 e0.2 e1.2
        else interp1 (e1 :: rest2) t).isFinite = false
      split_ifs
      · rfl
      · exact h e0 (List.mem_cons_self _ _)
      · exact lerpF_notFinite _ _ _ _ _ (h e0 (List.mem_cons_self _ _))
      · exact ih (fun e he => h e (List.mem_cons.mpr (Or.inr he)))

theorem dictInsert_append (dict : List (String × List ℚ × List ℚ)) (k : String)
    (v : List ℚ × List ℚ) (h : k ∉ dict.map Prod.fst) :
    dictInsert dict k v = dict ++ [(k, v)] := by
  induction dict with
  | nil => rfl
  | cons e rest ih =>
    show (if e.1 = k then (e.1, v) :: rest else e :: dictInsert rest k v) =
      (e :: rest) ++ [(k, v)]
    rw [List.map_cons] at h
    have h1 : e.1 ≠ k := fun hc => h (hc ▸ List.mem_cons_self _ _)
    rw [if_neg h1, ih (fun hc => h (List.mem_cons.mpr (Or.inr hc)))]
    rfl

theorem captureAll_ok (script : Nat → List Point) (keys : List String) :
    ∀ (i : Nat) (st : CapState) (es : List Effect) (st2 : CapState),
    keys.Nodup → (∀ k ∈ keys, k ∉ st.dict.map Prod.fst) →
    captureAll script keys i st = (es, .ok st2) →
    st2.dict = st.dict ++ expectedCurves script keys i ∧
    es = keys.map Effect.curveCaptured ∧
    ∀ j, j < keys.length → script (i + j) ≠ [] := by
  induction keys with
  | nil =>
    intro i st es st2 _ _ h
    injection h with h1 h2
    injection h2 with h3
    subst h1
    subst h3
    refine ⟨by simp [expectedCurves], rfl, by intro j hj; simp at hj⟩
  | cons k rest ih =>
    intro i st es st2 hnd hdisj h
    rw [List.nodup_cons] at hnd
    cases hc : script i with
    | nil =>
      rw [show captureAll script (k :: rest) i st =
        ([Effect.curveCaptured k], .error .indexError) from by
          rw [captureAll, hc]; rfl] at h
      injection h with h1 h2
      exact absurd h2 (fun hcon => Except.noConfusion hcon)
    | cons p ps =>
      have hcap : capture1 (script i) =
          .ok ((sortByX (script i)).map Point.x,
            (sortByX (script i)).map (fun q => -q.y)) := by
        rw [hc]; rfl
      set st3 : CapState :=
        { dict := dictInsert st.dict k
            ((sortByX (script i)).map Point.x,
              (sortByX (script i)).map (fun q => -q.y))
          minT := st.minT.fmin (.fin (qListMin ((sortByX (script i)).map Point.x)))
          maxT := st.maxT.fmax (.fin (qListMax ((sortByX (script i)).map Point.x)))
          minV := st.minV.fmin
            (.fin (qListMin ((sortByX (script i)).map (fun q => -q.y))))
          maxV := st.maxV.fmax
            (.fin (qListMax ((sortByX (script i)).map (fun q => -q.y)))) }
        with hst3
      have hdict3 : st3.dict = st.dict ++
          [(k, (sortByX (script i)).map Point.x,
            (sortByX (script i)).map (fun q => -q.y))] := by
        rw [hst3]
        exact dictInsert_append _ _ _ (hdisj k (List.mem_cons_self _ _))
      have hstep : captureAll script (k :: rest) i st =
          (Effect.curveCaptured k :: (captureAll script rest (i + 1) st3).1,
            (captureAll script rest (i + 1) st3).2) := by
        rw [captureAll, hcap]
      rw [hstep] at h
      rcases hrec : captureAll script rest (i + 1) st3 with ⟨res, r2⟩
      rw [hrec] at h
      simp only at h
      injection h with h1 h2
      subst h1
      subst h2
      have hdisj3 : ∀ k2 ∈ rest, k2 ∉ st3.dict.map Prod.fst := by
        intro k2 hk2
        rw [hdict3, List.map_append]
        rw [List.mem_append]
        push_neg
        refine ⟨hdisj k2 (List.mem_cons.mpr (Or.inr hk2)), ?_⟩
        simp only [List.map_cons, List.map_nil, List.mem_singleton]
        intro hcon
        exact hnd.1 (hcon ▸ hk2)
      obtain ⟨hd, he, hs⟩ := ih (i + 1) st3 res st2 hnd.2 hdisj3 hrec
      refine ⟨?_, ?_, ?_⟩
      · rw [hd, hdict3, List.append_assoc]
        rw [expectedCurves]
        rfl
      · rw [he]
        rfl
      · intro j hj
        cases j with
        | zero =>
          intro hcon
          rw [Nat.add_zero, hc] at hcon
          exact List.noConfusion hcon
        | succ j2 =>
          have := hs j2 (by simpa using hj)
          rw [show i + (j2 + 1) = i + 1 + j2 from by omega]
          exact this

theorem captureAll_err (script : Nat → List Point) (keys : List String) :
    ∀ (i : Nat) (st : CapState),
    (∃ j, j < keys.length ∧ script (i + j) = []) →
    (captureAll script keys i st).2 = .error .indexError := by
  induction keys with
  | nil =>
    intro i st h
    obtain ⟨j, hj, _⟩ := h
    simp at hj
  | cons k rest ih =>
    intro i st h
    cases hc : script i with
    | nil =>
      rw [captureAll, show capture1 (script i) = .error .indexError from by
        rw [hc]; rfl]
    | cons p ps =>
      obtain ⟨j, hj, hempty⟩ := h
      cases j with
      | zero =>
        rw [Nat.add_zero] at hempty
        rw [hempty] at hc
        exact List.noConfusion hc
      | succ j2 =>
        have hcap : capture1 (script i) =
            .ok ((sortByX (script i)).map Point.x,
              (sortByX (script i)).map (fun q => -q.y)) := by
          rw [hc]; rfl
        rw [captureAll, hcap]
        apply ih
        exact ⟨j2, by simpa using hj, by
          rw [show i + 1 + j2 = i + (j2 + 1) from by omega]
          exact hempty⟩

theorem resampleOnto_length (newTime : List ℚ) (pairs : List (ℚ × FVal)) :
    (resampleOnto newTime pairs).length = newTime.length :=
  List.length_map _ _

theorem mergedInfoOpt_nil (units : Option (List String)) (i : Nat) :
    mergedInfoOpt units i [] = [] := by
  cases units with
  | none => rfl
  | some us => rfl

theorem mergedInfoOpt_cons (units : Option (List String)) (i : Nat)
    (e : String × List ℚ × List ℚ) (rest : List (String × List ℚ × List ℚ))
    (newInfo : List (String × String))
    (hinfo : infoFor units i e.1 = .ok newInfo) :
    mergedInfoOpt units i (e :: rest) =
      newInfo ++ mergedInfoOpt units (i + 1) rest := by
  cases units with
  | none =>
    injection hinfo with h
    subst h
    rfl
  | some us =>
    cases hg : us.get? i with
    | none =>
      rw [infoFor, hg] at hinfo
      exact Except.noConfusion hinfo
    | some u =>
      rw [infoFor, hg] at hinfo
      injection hinfo with h
      subst h
      show (e.1, us.getD i "") :: mergedInfo us (i + 1) rest = _
      have hgd : us.getD i "" = u := by
        show (us.get? i).getD "" = u
        rw [hg]
        rfl
      rw [hgd]
      rfl

theorem mergeLoop_none_cons (vcal : FVal × FVal) (units : Option (List String))
    (union : List ℚ) (e : String × List ℚ × List ℚ)
    (rest : List (String × List ℚ × List ℚ)) (i : Nat) (out : TimeSeries) :
    mergeLoop none vcal units union (e :: rest) i out = .error .noneSubscript :=
  rfl

theorem mergeLoop_ok_inv (vr : ℚ × ℚ) (vcal : FVal × FVal)
    (units : Option (List String)) (union : List ℚ)
    (dict : List (String × List ℚ × List ℚ)) :
    ∀ (i : Nat) (out out1 : TimeSeries),
    mergeLoop (some vr) vcal units union dict i out = .ok out1 →
    out1.time = out.time ∧
    out1.data = out.data ++ dict.map (fun e => (e.1, resampleOnto union
      (e.2.1.zip (e.2.2.map (scaleValue vr vcal))))) ∧
    out1.info = out.info ++ mergedInfoOpt units i dict := by
  induction dict with
  | nil =>
    intro i out out1 h
    injection h with h1
    subst h1
    exact ⟨rfl, by simp, by rw [mergedInfoOpt_nil]; simp⟩
  | cons e rest ih =>
    intro i out out1 h
    cases hinfo : infoFor units i e.1 with
    | error err =>
      rw [show mergeLoop (some vr) vcal units union (e :: rest) i out =
        .error err from by rw [mergeLoop, hinfo]] at h
      exact Except.noConfusion h
    | ok newInfo =>
      have hstep : mergeLoop (some vr) vcal units union (e :: rest) i out =
          mergeLoop (some vr) vcal units union rest (i + 1)
            { out with
              data := out.data ++ [(e.1, resampleOnto union
                (e.2.1.zip (e.2.2.map (scaleValue vr vcal))))]
              info := out.info ++ newInfo } := by
        rw [mergeLoop, hinfo]
      rw [hstep] at h
      obtain ⟨ht, hd, hi2⟩ := ih (i + 1) _ out1 h
      refine ⟨ht, ?_, ?_⟩
      · rw [hd]
        simp
      · rw [hi2, mergedInfoOpt_cons units i e rest newInfo hinfo]
        simp

theorem ui_draw_ok_inv (filename : PyVal)
    (time_range value_range : Option (ℚ × ℚ)) (data_keys data_units : PyVal)
    (env : Env) (es : List Effect) (ts : TimeSeries)
    (h : ui_draw filename time_range value_range data_keys data_units env =
      (es, .ok ts)) :
    ∃ (keys : List String) (units : Option (List String)) (capEs : List Effect)
      (st : CapState) (out1 : TimeSeries) (tr : ℚ × ℚ),
      checkFilename filename = .ok () ∧
      checkKeys data_keys = .ok keys ∧
      checkUnits data_units keys = .ok units ∧
      captureAll env.curveClicks keys 0 capInit = (capEs, .ok st) ∧
      time_range = some tr ∧
      mergeLoop value_range (valueCalPixels value_range env.valueCalClicks st)
        units (dedupSort (allTimes st.dict)) st.dict 0
        { time := (dedupSort (allTimes st.dict)).map FVal.fin,
          data := [], info := [] } = .ok out1 ∧
      es = Effect.figureOpened :: Effect.imageShown ::
        (capEs ++ calEffects time_range value_range ++ [Effect.figureClosed]) ∧
      ts = { out1 with time := (dedupSort (allTimes st.dict)).map (fun t =>
        rescale (.fin t) (timeCalPixels time_range env.timeCalClicks st).1
          (timeCalPixels time_range env.timeCalClicks st).2
          (.fin tr.1) (.fin tr.2)) } := by
  rw [ui_draw] at h
  cases hcf : checkFilename filename with
  | error e =>
    rw [hcf] at h
    simp at h
  | ok u =>
    rw [hcf] at h
    simp only [] at h
    cases hck : checkKeys data_keys with
    | error e =>
      rw [hck] at h
      simp at h
    | ok keys =>
      rw [hck] at h
      simp only [] at h
      cases hcu : checkUnits data_units keys with
      | error e =>
        rw [hcu] at h
        simp at h
      | ok units =>
        rw [hcu] at h
        simp only [] at h
        cases hli : loadImage filename env with
        | error e =>
          rw [hli] at h
          simp at h
        | ok img =>
          rw [hli] at h
          simp only [] at h
          rcases hcap : captureAll env.curveClicks keys 0 capInit with ⟨capEs, capr⟩
          rw [hcap] at h
          cases capr with
          | error e => simp at h
          | ok st =>
            simp only [] at h
            cases hml : mergeLoop value_range
                (valueCalPixels value_range env.valueCalClicks st) units
                (dedupSort (allTimes st.dict)) st.dict 0
                { time := (dedupSort (allTimes st.dict)).map FVal.fin,
                  data := [], info := [] } with
            | error e =>
              rw [hml] at h
              simp at h
            | ok out1 =>
              rw [hml] at h
              cases time_range with
              | none => simp at h
              | some tr =>
                simp only [Prod.mk.injEq] at h
                obtain ⟨h1, h2⟩ := h
                injection h2 with h3
                exact ⟨keys, units, capEs, st, out1, tr, rfl, rfl, hcu,
                  hcap, rfl, hml, h1.symm, h3.symm⟩

theorem expectedCurves_fst (script : Nat → List Point) (keys : List String) :
    ∀ i, (expectedCurves script keys i).map Prod.fst = keys := by
  induction keys with
  | nil => intro i; rfl
  | cons k rest ih =>
    intro i
    rw [expectedCurves, List.map_cons, ih]

theorem expectedCurves_length (script : Nat → List Point) (keys : List String)
    (i : Nat) : (expectedCurves script keys i).length = keys.length := by
  have := congrArg List.length (expectedCurves_fst script keys i)
  simpa using this

theorem sortByX_map_mem (l : List Point) (x : ℚ) :
    x ∈ (sortByX l).map Point.x ↔ x ∈ l.map Point.x :=
  ((sortByX_perm l).map Point.x).mem_iff

theorem allTimes_expectedCurves_mem (script : Nat → List Point)
    (keys : List String) : ∀ i x,
    x ∈ allTimes (expectedCurves script keys i) ↔ x ∈ sessionXs script keys i := by
  induction keys with
  | nil => intro i x; exact Iff.rfl
  | cons k rest ih =>
    intro i x
    rw [expectedCurves, allTimes, sessionXs, List.mem_append, List.mem_append,
      ih, sortByX_map_mem]

theorem dedupSort_expected_eq (script : Nat → List Point) (keys : List String) :
    dedupSort (allTimes (expectedCurves script keys 0)) =
      dedupSort (sessionXs script keys 0) := by
  apply sorted_strict_ext _ _ (dedupSort_sorted _) (dedupSort_sorted _)
  intro x
  rw [dedupSort_mem, dedupSort_mem]
  exact allTimes_expectedCurves_mem script keys 0 x

theorem mergedInfo_fst (us : List String) :
    ∀ (dict : List (String × List ℚ × List ℚ)) (i : Nat),
    (mergedInfo us i dict).map Prod.fst = dict.map Prod.fst := by
  intro dict
  induction dict with
  | nil => intro i; rfl
  | cons e rest ih =>
    intro i
    rw [mergedInfo, List.map_cons, List.map_cons, ih]

theorem mergedInfo_snd (us : List String) :
    ∀ (dict : List (String × List ℚ × List ℚ)) (i : Nat),
    i + dict.length ≤ us.length →
    (mergedInfo us i dict).map Prod.snd = (us.drop i).take dict.length := by
  intro dict
  induction dict with
  | nil => intro i _; simp [mergedInfo]
  | cons e rest ih =>
    intro i hlen
    rw [List.length_cons] at hlen
    have hi : i < us.length := by omega
    rw [mergedInfo, List.map_cons, ih (i + 1) (by omega),
      List.drop_eq_getElem_cons hi, List.length_cons, List.take_succ_cons]
    have hgd : us.getD i "" = us[i] := by
      show (us.get? i).getD "" = us[i]
      rw [List.get?_eq_getElem? , List.getElem?_eq_getElem hi]
      rfl
    rw [hgd]

theorem asStrList_map (us : List String) :
    asStrList (.pylist (us.map PyVal.pystr)) = some us := by
  induction us with
  | nil => rfl
  | cons u rest ih =>
    show (List.map PyVal.pystr (u :: rest)).mapM _ = _
    rw [List.map_cons, List.mapM_cons]
    rw [show (List.map PyVal.pystr rest).mapM
      (fun v => match v with | .pystr s => some s | _ => none) =
        some rest from ih]
    rfl

theorem ui_draw_ok_char (filename : PyVal)
    (time_range value_range : Option (ℚ × ℚ)) (data_keys data_units : PyVal)
    (env : Env) (es : List Effect) (ts : TimeSeries) (keys : List String)
    (hk : checkKeys data_keys = .ok keys) (hnd : keys.Nodup)
    (h : ui_draw filename time_range value_range data_keys data_units env =
      (es, .ok ts)) :
    ∃ (units : Option (List String)) (tr : ℚ × ℚ),
      checkUnits data_units keys = .ok units ∧
      time_range = some tr ∧
      ts.time = (dedupSort (sessionXs env.curveClicks keys 0)).map (fun t =>
        rescale (.fin t)
          (.fin (min env.timeCalClicks.1.x env.timeCalClicks.2.x))
          (.fin (max env.timeCalClicks.1.x env.timeCalClicks.2.x))
          (.fin tr.1) (.fin tr.2)) ∧
      ts.data.map Prod.fst = keys ∧
      (∀ ch ∈ ts.data,
        (ch.2 : List FVal).length =
          (dedupSort (sessionXs env.curveClicks keys 0)).length) ∧
      ts.info = mergedInfoOpt units 0 (expectedCurves env.curveClicks keys 0) ∧
      (∀ vrp : ℚ × ℚ, value_range = some vrp →
        ts.data = (expectedCurves env.curveClicks keys 0).map (fun e =>
          (e.1, resampleOnto (dedupSort (sessionXs env.curveClicks keys 0))
            (e.2.1.zip (e.2.2.map (scaleValue vrp
              (.fin (min (-env.valueCalClicks.1.y) (-env.valueCalClicks.2.y)),
               .fin (max (-env.valueCalClicks.1.y)
                 (-env.valueCalClicks.2.y))))))))) := by
  obtain ⟨keys2, units, capEs, st, out1, tr, _, hck, hcu, hcap, htr, hml, _, hts⟩ :=
    ui_draw_ok_inv filename time_range value_range data_keys data_units env es ts h
  have hkeys : keys = keys2 := by
    rw [hk] at hck
    injection hck with he
    try exact he
  subst hkeys
  obtain ⟨hdict, _, _⟩ := captureAll_ok env.curveClicks keys 0 capInit capEs st
    hnd (by intro k2 _; show k2 ∉ List.map Prod.fst ([] : List (String × List ℚ × List ℚ)); simp) hcap
  rw [show capInit.dict = [] from rfl, List.nil_append] at hdict
  have hunion : dedupSort (allTimes st.dict) =
      dedupSort (sessionXs env.curveClicks keys 0) := by
    rw [hdict]
    exact dedupSort_expected_eq env.curveClicks keys
  subst htr
  subst hts
  refine ⟨units, tr, hcu, rfl, ?_, ?_, ?_, ?_, ?_⟩
  · show (dedupSort (allTimes st.dict)).map _ = _
    rw [hunion]
    rfl
  · show out1.data.map Prod.fst = keys
    cases hvr : value_range with
    | none =>
      cases hd2 : st.dict with
      | nil =>
        rw [hvr, hd2] at hml
        injection hml with h1
        subst h1
        have hkeys2 : keys = [] := by
          rw [hd2] at hdict
          cases keys with
          | nil => rfl
          | cons k2 rest => exact absurd hdict.symm (by rw [expectedCurves]; simp)
        rw [hkeys2]
        rfl
      | cons e rest =>
        rw [hvr, hd2, mergeLoop_none_cons] at hml
        exact Except.noConfusion hml
    | some vr =>
      rw [hvr] at hml
      obtain ⟨_, hd, _⟩ := mergeLoop_ok_inv vr _ units _ st.dict 0 _ out1 hml
      rw [hd, List.map_append, List.map_map]
      show ([] : List String) ++ st.dict.map Prod.fst = keys
      rw [List.nil_append, hdict, expectedCurves_fst]
  · intro ch hch
    show ch.2.length = (dedupSort (sessionXs env.curveClicks keys 0)).length
    revert hch
    show ch ∈ out1.data → _
    cases hvr : value_range with
    | none =>
      cases hd2 : st.dict with
      | nil =>
        rw [hvr, hd2] at hml
        injection hml with h1
        subst h1
        intro hch
        exact absurd hch (List.not_mem_nil ch)
      | cons e rest =>
        rw [hvr, hd2, mergeLoop_none_cons] at hml
        exact Except.noConfusion hml
    | some vr =>
      rw [hvr] at hml
      obtain ⟨_, hd, _⟩ := mergeLoop_ok_inv vr _ units _ st.dict 0 _ out1 hml
      rw [hd]
      intro hch
      simp only [List.nil_append, List.mem_map] at hch
      obtain ⟨e, _, he⟩ := hch
      rw [← he, ← hunion]
      exact resampleOnto_length _ _
  · show out1.info = _
    cases hvr : value_range with
    | none =>
      cases hd2 : st.dict with
      | nil =>
        rw [hvr, hd2] at hml
        injection hml with h1
        subst h1
        have hkeys2 : keys = [] := by
          rw [hd2] at hdict
          cases keys with
          | nil => rfl
          | cons k2 rest => exact absurd hdict.symm (by rw [expectedCurves]; simp)
        rw [hkeys2]
        show ([] : List (String × String)) = mergedInfoOpt units 0 (expectedCurves env.curveClicks [] 0)
        rw [show expectedCurves env.curveClicks ([] : List String) 0 = [] from rfl,
          mergedInfoOpt_nil]
      | cons e rest =>
        rw [hvr, hd2, mergeLoop_none_cons] at hml
        exact Except.noConfusion hml
    | some vr =>
      rw [hvr] at hml
      obtain ⟨_, _, hi⟩ := mergeLoop_ok_inv vr _ units _ st.dict 0 _ out1 hml
      rw [hi, hdict]
      rfl
  · intro vrp hvrp
    subst hvrp
    obtain ⟨_, hd, _⟩ := mergeLoop_ok_inv vrp _ units _ st.dict 0 _ out1 hml
    show out1.data = _
    rw [hd]
    show ([] : List (String × List FVal)) ++ _ = _
    rw [List.nil_append, hunion, hdict]
    rfl

/-- C1: for every call to ui_draw that returns a TimeSeries (with valid and,
as the data model assumes, pairwise-distinct data keys), the returned
container's time base is the sorted, duplicate-free union of all captured
curves' pixel x coordinates, each mapped through the two-point time
calibration; the union is strictly sorted and has no duplicates while
containing exactly the captured x coordinates, so an instant shared by two
curves appears exactly once. -/
theorem uiDraw_shared_time_base (filename : PyVal)
    (time_range value_range : Option (ℚ × ℚ)) (data_keys data_units : PyVal)
    (env : Env) (es : List Effect) (ts : TimeSeries) (keys : List String)
    (hk : checkKeys data_keys = .ok keys) (hnd : keys.Nodup)
    (h : ui_draw filename time_range value_range data_keys data_units env =
      (es, .ok ts)) :
    ∃ tr : ℚ × ℚ, time_range = some tr ∧
      ts.time = (dedupSort (sessionXs env.curveClicks keys 0)).map (fun t =>
        rescale (.fin t)
          (.fin (min env.timeCalClicks.1.x env.timeCalClicks.2.x))
          (.fin (max env.timeCalClicks.1.x env.timeCalClicks.2.x))
          (.fin tr.1) (.fin tr.2)) ∧
      (dedupSort (sessionXs env.curveClicks keys 0)).Sorted (· < ·) ∧
      (dedupSort (sessionXs env.curveClicks keys 0)).Nodup ∧
      ∀ x : ℚ, x ∈ dedupSort (sessionXs env.curveClicks keys 0) ↔
        x ∈ sessionXs env.curveClicks keys 0 := by
  obtain ⟨units, tr, _, htr, htime, _, _, _, _⟩ :=
    ui_draw_ok_char filename time_range value_range data_keys data_units env
      es ts keys hk hnd h
  exact ⟨tr, htr, htime, dedupSort_sorted _, dedupSort_nodup _,
    fun x => dedupSort_mem x _⟩

theorem uiDraw_shared_time_base_witness :
    checkKeys (.pylist [.pystr "a", .pystr "b"]) = .ok ["a", "b"] ∧
    (["a", "b"] : List String).Nodup ∧
    ∃ es ts, ui_draw (.pystr "f") (some (0, 1)) (some (0, 1))
        (.pylist [.pystr "a", .pystr "b"]) .pynone envA = (es, .ok ts) ∧
      ∃ tr : ℚ × ℚ, (some ((0 : ℚ), (1 : ℚ))) = some tr ∧
        ts.time = (dedupSort (sessionXs envA.curveClicks ["a", "b"] 0)).map (fun t =>
          rescale (.fin t)
            (.fin (min envA.timeCalClicks.1.x envA.timeCalClicks.2.x))
            (.fin (max envA.timeCalClicks.1.x envA.timeCalClicks.2.x))
            (.fin tr.1) (.fin tr.2)) ∧
        (dedupSort (sessionXs envA.curveClicks ["a", "b"] 0)).Sorted (· < ·) ∧
        (dedupSort (sessionXs envA.curveClicks ["a", "b"] 0)).Nodup ∧
        ∀ x : ℚ, x ∈ dedupSort (sessionXs envA.curveClicks ["a", "b"] 0) ↔
          x ∈ sessionXs envA.curveClicks ["a", "b"] 0 := by
  have hrun : ui_draw (.pystr "f") (some (0, 1)) (some (0, 1))
      (.pylist [.pystr "a", .pystr "b"]) .pynone envA =
      ([Effect.figureOpened, Effect.imageShown, Effect.curveCaptured "a",
        Effect.curveCaptured "b", Effect.calibrationCaptured,
        Effect.calibrationCaptured, Effect.figureClosed],
       .ok { time := [.fin 0, .fin (mkRat 1 4), .fin (mkRat 1 2),
              .fin (mkRat 3 4), .fin 1]
             data := [("a", [.fin 0, .fin (mkRat 1 4), .fin (mkRat 1 2),
                .fin (mkRat 3 4), .fin 1]),
               ("b", [.nan, .fin (mkRat 1 4), .fin (mkRat 1 2),
                .fin (mkRat 3 4), .nan])]
             info := [] }) := by decide
  exact ⟨by decide, by decide, _, _, hrun,
    uiDraw_shared_time_base (.pystr "f") (some (0, 1)) (some (0, 1))
      (.pylist [.pystr "a", .pystr "b"]) .pynone envA _ _ ["a", "b"]
      (by decide) (by decide) hrun⟩

/-- C2 (amended): under exact rational evaluation of the rescale expression
(an idealisation of the float64 arithmetic the program runs), every pixel
value between two distinct pixel endpoints maps to a finite value lying
between real_low and real_high, and pixel_low and pixel_high map exactly to
real_low and real_high.  The program itself rounds after every operation, so
it can miss the endpoint and leave the interval by one unit in the last
place; see the counterexample below. -/
theorem rescale_monotone_exact_endpoints (p p0 p1 r0 r1 : ℚ)
    (h0 : p0 ≤ p) (h1 : p ≤ p1) (hne : p0 ≠ p1) :
    (∃ r : ℚ,
      rescale (.fin p) (.fin p0) (.fin p1) (.fin r0) (.fin r1) = .fin r ∧
      min r0 r1 ≤ r ∧ r ≤ max r0 r1) ∧
    rescale (.fin p0) (.fin p0) (.fin p1) (.fin r0) (.fin r1) = .fin r0 ∧
    rescale (.fin p1) (.fin p0) (.fin p1) (.fin r0) (.fin r1) = .fin r1 := by
  have hlt : p0 < p1 := lt_of_le_of_ne (h0.trans h1) hne
  have hd : p1 - p0 ≠ 0 := by
    intro hc
    apply hne
    linarith
  have hscale : ∀ q : ℚ,
      rescale (.fin q) (.fin p0) (.fin p1) (.fin r0) (.fin r1) =
      .fin ((q - p0) * (r1 - r0) / (p1 - p0) + r0) := by
    intro q
    unfold rescale
    rw [FVal.fin_sub_fin, FVal.fin_sub_fin, FVal.fin_mul_fin, FVal.fin_sub_fin,
      FVal.fin_div_fin _ _ hd, FVal.fin_add_fin]
  have ht0 : 0 ≤ (p - p0) / (p1 - p0) :=
    div_nonneg (by linarith) (by linarith)
  have ht1 : (p - p0) / (p1 - p0) ≤ 1 :=
    (div_le_one (by linarith)).mpr (by linarith)
  have habc : (p - p0) * (r1 - r0) / (p1 - p0) =
      (p - p0) / (p1 - p0) * (r1 - r0) := by
    rw [div_mul_eq_mul_div]
  refine ⟨⟨(p - p0) * (r1 - r0) / (p1 - p0) + r0, hscale p, ?_, ?_⟩, ?_, ?_⟩
  · rw [habc]
    rcases le_total r0 r1 with hc | hc
    · rw [min_eq_left hc]
      nlinarith [mul_nonneg ht0 (by linarith : (0 : ℚ) ≤ r1 - r0)]
    · rw [min_eq_right hc]
      nlinarith [mul_nonneg (by linarith : (0 : ℚ) ≤ 1 - (p - p0) / (p1 - p0))
        (by linarith : (0 : ℚ) ≤ r0 - r1)]
  · rw [habc]
    rcases le_total r0 r1 with hc | hc
    · rw [max_eq_right hc]
      nlinarith [mul_nonneg (by linarith : (0 : ℚ) ≤ 1 - (p - p0) / (p1 - p0))
        (by linarith : (0 : ℚ) ≤ r1 - r0)]
    · rw [max_eq_left hc]
      nlinarith [mul_nonneg ht0 (by linarith : (0 : ℚ) ≤ r0 - r1)]
  · rw [hscale p0, sub_self, zero_mul, zero_div, zero_add]
  · rw [hscale p1, mul_comm, mul_div_assoc, div_self hd, mul_one, sub_add_cancel]

theorem rescale_monotone_exact_endpoints_witness :
    ((0 : ℚ) ≤ 1 ∧ (1 : ℚ) ≤ 2 ∧ (0 : ℚ) ≠ 2) ∧
    ((∃ r : ℚ,
        rescale (.fin 1) (.fin 0) (.fin 2) (.fin 5) (.fin 9) = .fin r ∧
        min (5 : ℚ) 9 ≤ r ∧ r ≤ max (5 : ℚ) 9) ∧
      rescale (.fin 0) (.fin 0) (.fin 2) (.fin 5) (.fin 9) = .fin 5 ∧
      rescale (.fin 2) (.fin 0) (.fin 2) (.fin 5) (.fin 9) = .fin 9) :=
  ⟨⟨by norm_num, by norm_num, by norm_num⟩,
    rescale_monotone_exact_endpoints 1 0 2 5 9 (by norm_num) (by norm_num)
      (by norm_num)⟩

/-- C2 counterexample: in the binary64 arithmetic the program actually runs
(rescale64, one rounding after each operation), the rescale does not map
pixel_high exactly to real_high and its value can leave the
[real_low, real_high] interval: with pixel endpoints 0 and 3 and real range
[0, double(0.1)], the value computed at pixel 3 strictly exceeds real_high
by one unit in the last place (numpy prints it 0.10000000000000002). -/
theorem rescale_monotone_exact_endpoints_cex :
    (0 : ℚ) ≤ 3 ∧ (3 : ℚ) ≤ 3 ∧ (0 : ℚ) ≠ 3 ∧
    rnd (mkRat 1 10) = mkRat 3602879701896397 36028797018963968 ∧
    rescale64 3 0 3 0 (rnd (mkRat 1 10)) =
      mkRat 7205759403792795 72057594037927936 ∧
    rescale64 3 0 3 0 (rnd (mkRat 1 10)) ≠ rnd (mkRat 1 10) ∧
    rnd (mkRat 1 10) < rescale64 3 0 3 0 (rnd (mkRat 1 10)) := by
  decide

/-- C3: contrary to the documented default calibration, omitting time_range
(respectively value_range) does not fall back to a [0, 1] range: the source
never assigns a default to the range variable itself and later subscripts
None (source lines 202-208 and 219-221), so the call raises TypeError after
the whole interaction instead of returning a container.  This theorem
evaluates the model at such failing inputs. -/
theorem uiDraw_omitted_range_raises_type_error :
    (ui_draw (.pystr "plot.png") none (some (0, 1)) (.pystr "data") .pynone
      envA).2 = .error .noneSubscript ∧
    (ui_draw (.pystr "plot.png") (some (0, 1)) none (.pystr "data") .pynone
      envA).2 = .error .noneSubscript :=
  ⟨by decide, by decide⟩

/-- C4: every call that returns (with valid, pairwise-distinct data keys)
yields exactly one data channel per entry of data_keys, in order, and each
channel's resampled value array has exactly as many entries as the shared
time base. -/
theorem uiDraw_one_channel_per_key (filename : PyVal)
    (time_range value_range : Option (ℚ × ℚ)) (data_keys data_units : PyVal)
    (env : Env) (es : List Effect) (ts : TimeSeries) (keys : List String)
    (hk : checkKeys data_keys = .ok keys) (hnd : keys.Nodup)
    (h : ui_draw filename time_range value_range data_keys data_units env =
      (es, .ok ts)) :
    ts.data.map Prod.fst = keys ∧
    ∀ ch ∈ ts.data, (ch.2 : List FVal).length = ts.time.length := by
  obtain ⟨units, tr, _, _, htime, hfst, hlen, _, _⟩ :=
    ui_draw_ok_char filename time_range value_range data_keys data_units env
      es ts keys hk hnd h
  refine ⟨hfst, fun ch hch => ?_⟩
  rw [htime, List.length_map]
  exact hlen ch hch

theorem uiDraw_one_channel_per_key_witness :
    checkKeys (.pylist [.pystr "a", .pystr "b"]) = .ok ["a", "b"] ∧
    (["a", "b"] : List String).Nodup ∧
    ∃ es ts, ui_draw (.pystr "g") (some (0, 1)) (some (0, 1))
        (.pylist [.pystr "a", .pystr "b"]) .pynone envA = (es, .ok ts) ∧
      ts.data.map Prod.fst = ["a", "b"] ∧
      ∀ ch ∈ ts.data, (ch.2 : List FVal).length = ts.time.length := by
  have hrun : ui_draw (.pystr "g") (some (0, 1)) (some (0, 1))
      (.pylist [.pystr "a", .pystr "b"]) .pynone envA =
      ([Effect.figureOpened, Effect.imageShown, Effect.curveCaptured "a",
        Effect.curveCaptured "b", Effect.calibrationCaptured,
        Effect.calibrationCaptured, Effect.figureClosed],
       .ok { time := [.fin 0, .fin (mkRat 1 4), .fin (mkRat 1 2),
              .fin (mkRat 3 4), .fin 1]
             data := [("a", [.fin 0, .fin (mkRat 1 4), .fin (mkRat 1 2),
                .fin (mkRat 3 4), .fin 1]),
               ("b", [.nan, .fin (mkRat 1 4), .fin (mkRat 1 2),
                .fin (mkRat 3 4), .nan])]
             info := [] }) := by decide
  exact ⟨by decide, by decide, _, _, hrun,
    uiDraw_one_channel_per_key (.pystr "g") (some (0, 1)) (some (0, 1))
      (.pylist [.pystr "a", .pystr "b"]) .pynone envA _ _ ["a", "b"]
      (by decide) (by decide) hrun⟩

/-- C5: passing a bare string as data_keys behaves exactly as passing the
one-element list of that string (the two calls are equal on every input),
and a successful call yields exactly one channel carrying that name. -/
theorem uiDraw_bare_string_data_keys (filename : PyVal)
    (time_range value_range : Option (ℚ × ℚ)) (s : String) (data_units : PyVal)
    (env : Env) :
    ui_draw filename time_range value_range (.pystr s) data_units env =
      ui_draw filename time_range value_range (.pylist [.pystr s])
        data_units env ∧
    ∀ es ts, ui_draw filename time_range value_range (.pystr s) data_units env =
      (es, .ok ts) → ts.data.map Prod.fst = [s] := by
  refine ⟨rfl, fun es ts h => ?_⟩
  obtain ⟨units, tr, _, _, _, hfst, _, _, _⟩ :=
    ui_draw_ok_char filename time_range value_range (.pystr s) data_units env
      es ts [s] rfl (by simp) h
  exact hfst

theorem uiDraw_bare_string_data_keys_witness :
    ∃ es ts, ui_draw (.pystr "f") (some (0, 1)) (some (0, 1)) (.pystr "a")
        .pynone envA = (es, .ok ts) ∧
      ui_draw (.pystr "f") (some (0, 1)) (some (0, 1)) (.pystr "a")
          .pynone envA =
        ui_draw (.pystr "f") (some (0, 1)) (some (0, 1))
          (.pylist [.pystr "a"]) .pynone envA ∧
      ts.data.map Prod.fst = ["a"] := by
  have hrun : ui_draw (.pystr "f") (some (0, 1)) (some (0, 1)) (.pystr "a")
      .pynone envA =
      ([Effect.figureOpened, Effect.imageShown, Effect.curveCaptured "a",
        Effect.calibrationCaptured, Effect.calibrationCaptured,
        Effect.figureClosed],
       .ok { time := [.fin 0, .fin (mkRat 1 2), .fin 1]
             data := [("a", [.fin 0, .fin (mkRat 1 2), .fin 1])]
             info := [] }) := by decide
  exact ⟨_, _, hrun,
    (uiDraw_bare_string_data_keys (.pystr "f") (some (0, 1)) (some (0, 1))
      "a" .pynone envA).1,
    (uiDraw_bare_string_data_keys (.pystr "f") (some (0, 1)) (some (0, 1))
      "a" .pynone envA).2 _ _ hrun⟩

/-- C6: when data_units is a single string, every output channel carries
that string as its unit metadata; when it is a list of strings of the same
length as data_keys, the i-th channel carries the i-th unit, in order. -/
theorem uiDraw_units_metadata (filename : PyVal)
    (time_range value_range : Option (ℚ × ℚ)) (data_keys data_units : PyVal)
    (env : Env) (es : List Effect) (ts : TimeSeries) (keys : List String)
    (hk : checkKeys data_keys = .ok keys) (hnd : keys.Nodup)
    (h : ui_draw filename time_range value_range data_keys data_units env =
      (es, .ok ts)) :
    (∀ u : String, data_units = .pystr u →
      ts.info.map Prod.fst = ts.data.map Prod.fst ∧
      ts.info.map Prod.snd = keys.map (fun _ => u)) ∧
    (∀ us : List String, data_units = .pylist (us.map PyVal.pystr) →
      us.length = keys.length →
      ts.info.map Prod.fst = ts.data.map Prod.fst ∧
      ts.info.map Prod.snd = us) := by
  obtain ⟨units, tr, hcu, _, _, hfst, _, hinfo, _⟩ :=
    ui_draw_ok_char filename time_range value_range data_keys data_units env
      es ts keys hk hnd h
  constructor
  · intro u hdu
    subst hdu
    have hu2 : units = some (keys.map (fun _ => u)) := by
      rw [show checkUnits (.pystr u) keys =
        .ok (some (keys.map (fun _ => u))) from rfl] at hcu
      injection hcu with h2
      exact h2.symm
    subst hu2
    rw [hinfo]
    constructor
    · show (mergedInfo (keys.map fun _ => u) 0
        (expectedCurves env.curveClicks keys 0)).map Prod.fst = _
      rw [mergedInfo_fst, expectedCurves_fst, hfst]
    · show (mergedInfo (keys.map fun _ => u) 0
        (expectedCurves env.curveClicks keys 0)).map Prod.snd = _
      have hle : 0 + (expectedCurves env.curveClicks keys 0).length ≤
          (keys.map (fun _ => u)).length := by
        rw [expectedCurves_length, List.length_map]
        omega
      rw [mergedInfo_snd _ _ _ hle, List.drop_zero, expectedCurves_length,
        List.take_of_length_le (by simp)]
  · intro us hdu hlen
    subst hdu
    have hu2 : units = some us := by
      have hcu2 : checkUnits (.pylist (us.map PyVal.pystr)) keys =
          .ok (some us) := by
        show (match asStrList (.pylist (us.map PyVal.pystr)) with
          | some us2 => Except.ok (some us2)
          | none =>
            Except.error (DrawError.invalidArgument "data_units")) =
          Except.ok (some us)
        rw [asStrList_map]
      rw [hcu2] at hcu
      injection hcu with h2
      exact h2.symm
    subst hu2
    rw [hinfo]
    constructor
    · show (mergedInfo us 0
        (expectedCurves env.curveClicks keys 0)).map Prod.fst = _
      rw [mergedInfo_fst, expectedCurves_fst, hfst]
    · show (mergedInfo us 0
        (expectedCurves env.curveClicks keys 0)).map Prod.snd = _
      have hle : 0 + (expectedCurves env.curveClicks keys 0).length ≤
          us.length := by
        rw [expectedCurves_length]
        omega
      rw [mergedInfo_snd _ _ _ hle, List.drop_zero, expectedCurves_length,
        ← hlen, List.take_length]

theorem uiDraw_units_metadata_witness :
    checkKeys (.pylist [.pystr "a", .pystr "b"]) = .ok ["a", "b"] ∧
    (["a", "b"] : List String).Nodup ∧
    (∃ es ts, ui_draw (.pystr "f") (some (0, 1)) (some (0, 1))
        (.pylist [.pystr "a", .pystr "b"]) (.pystr "N") envA = (es, .ok ts) ∧
      ts.info.map Prod.fst = ts.data.map Prod.fst ∧
      ts.info.map Prod.snd = (["a", "b"] : List String).map (fun _ => "N")) ∧
    (∃ es ts, ui_draw (.pystr "f") (some (0, 1)) (some (0, 1))
        (.pylist [.pystr "a", .pystr "b"])
        (.pylist [.pystr "N", .pystr "mm"]) envA = (es, .ok ts) ∧
      ts.info.map Prod.fst = ts.data.map Prod.fst ∧
      ts.info.map Prod.snd = ["N", "mm"]) := by
  have hrun1 : ui_draw (.pystr "f") (some (0, 1)) (some (0, 1))
      (.pylist [.pystr "a", .pystr "b"]) (.pystr "N") envA =
      ([Effect.figureOpened, Effect.imageShown, Effect.curveCaptured "a",
        Effect.curveCaptured "b", Effect.calibrationCaptured,
        Effect.calibrationCaptured, Effect.figureClosed],
       .ok { time := [.fin 0, .fin (mkRat 1 4), .fin (mkRat 1 2),
              .fin (mkRat 3 4), .fin 1]
             data := [("a", [.fin 0, .fin (mkRat 1 4), .fin (mkRat 1 2),
                .fin (mkRat 3 4), .fin 1]),
               ("b", [.nan, .fin (mkRat 1 4), .fin (mkRat 1 2),
                .fin (mkRat 3 4), .nan])]
             info := [("a", "N"), ("b", "N")] }) := by decide
  have hrun2 : ui_draw (.pystr "f") (some (0, 1)) (some (0, 1))
      (.pylist [.pystr "a", .pystr "b"])
      (.pylist [.pystr "N", .pystr "mm"]) envA =
      ([Effect.figureOpened, Effect.imageShown, Effect.curveCaptured "a",
        Effect.curveCaptured "b", Effect.calibrationCaptured,
        Effect.calibrationCaptured, Effect.figureClosed],
       .ok { time := [.fin 0, .fin (mkRat 1 4), .fin (mkRat 1 2),
              .fin (mkRat 3 4), .fin 1]
             data := [("a", [.fin 0, .fin (mkRat 1 4), .fin (mkRat 1 2),
                .fin (mkRat 3 4), .fin 1]),
               ("b", [.nan, .fin (mkRat 1 4), .fin (mkRat 1 2),
                .fin (mkRat 3 4), .nan])]
             info := [("a", "N"), ("b", "mm")] }) := by decide
  refine ⟨by decide, by decide, ⟨_, _, hrun1, ?_⟩, ⟨_, _, hrun2, ?_⟩⟩
  · exact (uiDraw_units_metadata (.pystr "f") (some (0, 1)) (some (0, 1))
      (.pylist [.pystr "a", .pystr "b"]) (.pystr "N") envA _ _ ["a", "b"]
      (by decide) (by decide) hrun1).1 "N" rfl
  · exact (uiDraw_units_metadata (.pystr "f") (some (0, 1)) (some (0, 1))
      (.pylist [.pystr "a", .pystr "b"])
      (.pylist [.pystr "N", .pystr "mm"]) envA _ _ ["a", "b"]
      (by decide) (by decide) hrun2).2 ["N", "mm"] rfl rfl

/-- C7: a non-string, non-None filename is rejected by the eager parameter
check: the call returns the InvalidArgument-style error immediately, with an
empty effect trace, so no display surface is created and no interaction
begins. -/
theorem uiDraw_nonstring_filename_rejected (filename : PyVal)
    (time_range value_range : Option (ℚ × ℚ)) (data_keys data_units : PyVal)
    (env : Env) (hstr : ∀ s2, filename ≠ .pystr s2)
    (hnone : filename ≠ .pynone) :
    ui_draw filename time_range value_range data_keys data_units env =
      ([], .error (.invalidArgument "filename")) := by
  have hcf : checkFilename filename = .error (.invalidArgument "filename") := by
    cases filename with
    | pynone => exact absurd rfl hnone
    | pystr s2 => exact absurd rfl (hstr s2)
    | pyint n => rfl
    | pylist xs => rfl
  rw [ui_draw, hcf]

theorem uiDraw_nonstring_filename_rejected_witness :
    (∀ s2, (PyVal.pyint 7) ≠ PyVal.pystr s2) ∧
    (PyVal.pyint 7) ≠ PyVal.pynone ∧
    ui_draw (.pyint 7) (some (0, 1)) (some (0, 1)) (.pystr "data") .pynone
      envA = ([], .error (.invalidArgument "filename")) :=
  ⟨fun _ hc => PyVal.noConfusion hc, fun hc => PyVal.noConfusion hc,
    uiDraw_nonstring_filename_rejected (.pyint 7) (some (0, 1)) (some (0, 1))
      (.pystr "data") .pynone envA (fun _ hc => PyVal.noConfusion hc)
      (fun hc => PyVal.noConfusion hc)⟩

/-- C8: with no filename and no image on the clipboard, the call fails with
the distinct descriptive clipboard error (the source catches the platform
TypeError and re-raises it with its own message), before any display surface
is created. -/
theorem uiDraw_empty_clipboard_no_image
    (time_range value_range : Option (ℚ × ℚ)) (s : String) (env : Env)
    (hclip : env.clipboard = none) :
    ui_draw .pynone time_range value_range (.pystr s) .pynone env =
      ([], .error (.noImage "The clipboard does not contain an image.")) := by
  have hli : loadImage .pynone env =
      .error (.noImage "The clipboard does not contain an image.") := by
    show (match env.clipboard with
      | some img => Except.ok img
      | none =>
        Except.error
          (DrawError.noImage "The clipboard does not contain an image.")) = _
    rw [hclip]
  rw [ui_draw, hli]
  rfl

theorem uiDraw_empty_clipboard_no_image_witness :
    envB.clipboard = none ∧
    ui_draw .pynone (some (0, 1)) (some (0, 1)) (.pystr "data") .pynone envB =
      ([], .error (.noImage "The clipboard does not contain an image.")) :=
  ⟨rfl, uiDraw_empty_clipboard_no_image (some (0, 1)) (some (0, 1)) "data"
    envB rfl⟩

/-- C10: when any requested curve's capture session ends with zero clicks,
the call fails with the IndexError raised while sorting and extracting that
curve's points; in particular ui_draw never returns a container holding a
channel built from an empty click sequence, so at least one click per curve
is a de facto precondition of success. -/
theorem uiDraw_empty_capture_index_error (filename : PyVal)
    (time_range value_range : Option (ℚ × ℚ)) (data_keys data_units : PyVal)
    (env : Env) (keys : List String) (units : Option (List String))
    (img : Image)
    (hcf : checkFilename filename = .ok ())
    (hk : checkKeys data_keys = .ok keys)
    (hu : checkUnits data_units keys = .ok units)
    (hli : loadImage filename env = .ok img)
    (j : Nat) (hj : j < keys.length) (hempty : env.curveClicks j = []) :
    (ui_draw filename time_range value_range data_keys data_units env).2 =
      .error .indexError := by
  rw [ui_draw, hcf]
  simp only []
  rw [hk]
  simp only []
  rw [hu]
  simp only []
  rw [hli]
  simp only []
  rcases hcap : captureAll env.curveClicks keys 0 capInit with ⟨capEs, capr⟩
  have hcerr := captureAll_err env.curveClicks keys 0 capInit
    ⟨j, hj, by rw [Nat.zero_add]; exact hempty⟩
  rw [hcap] at hcerr
  cases capr with
  | ok st => exact absurd hcerr (fun hc => Except.noConfusion hc)
  | error e =>
    have hcerr2 : (Except.error e : Except DrawError CapState) =
        .error .indexError := hcerr
    injection hcerr2 with he
    subst he
    rfl

theorem uiDraw_empty_capture_index_error_witness :
    checkFilename (.pystr "f") = .ok () ∧
    checkKeys (.pylist [.pystr "a", .pystr "b"]) = .ok ["a", "b"] ∧
    checkUnits .pynone ["a", "b"] = .ok none ∧
    loadImage (.pystr "f") envD = .ok .mk ∧
    1 < (["a", "b"] : List String).length ∧
    envD.curveClicks 1 = [] ∧
    (ui_draw (.pystr "f") (some (0, 1)) (some (0, 1))
      (.pylist [.pystr "a", .pystr "b"]) .pynone envD).2 =
      .error .indexError :=
  ⟨rfl, by decide, rfl, by decide, by decide, by decide,
    uiDraw_empty_capture_index_error (.pystr "f") (some (0, 1)) (some (0, 1))
      (.pylist [.pystr "a", .pystr "b"]) .pynone envD ["a", "b"] none .mk
      rfl (by decide) rfl (by decide) 1 (by decide) (by decide)⟩

theorem insertByX_ne_nil (p : Point) (l : List Point) : insertByX p l ≠ [] := by
  cases l with
  | nil => simp [insertByX]
  | cons q rest =>
    rw [insertByX]
    split
    · simp
    · simp

theorem ui_draw_single_eq (f k : String) (tr vr : ℚ × ℚ) (env : Env)
    (p : Point) (ps : List Point) (hc : env.curveClicks 0 = p :: ps) :
    ui_draw (.pystr f) (some tr) (some vr) (.pystr k) .pynone env =
      ([Effect.figureOpened, Effect.imageShown, Effect.curveCaptured k,
        Effect.calibrationCaptured, Effect.calibrationCaptured,
        Effect.figureClosed],
       .ok
        { time := (dedupSort
            (((sortByX (env.curveClicks 0)).map Point.x) ++ [])).map
            (fun t => rescale (.fin t)
              (.fin (min env.timeCalClicks.1.x env.timeCalClicks.2.x))
              (.fin (max env.timeCalClicks.1.x env.timeCalClicks.2.x))
              (.fin tr.1) (.fin tr.2))
          data := [(k, resampleOnto
            (dedupSort (((sortByX (env.curveClicks 0)).map Point.x) ++ []))
            (((sortByX (env.curveClicks 0)).map Point.x).zip
              (((sortByX (env.curveClicks 0)).map (fun q => -q.y)).map
                (scaleValue vr
                  (.fin (min (-env.valueCalClicks.1.y)
                    (-env.valueCalClicks.2.y)),
                   .fin (max (-env.valueCalClicks.1.y)
                    (-env.valueCalClicks.2.y)))))))]
          info := [] }) := by
  have hcap : captureAll env.curveClicks [k] 0 capInit =
      ([Effect.curveCaptured k], .ok
        { dict := [(k, (sortByX (env.curveClicks 0)).map Point.x,
            (sortByX (env.curveClicks 0)).map (fun q => -q.y))]
          minT := .fin (qListMin ((sortByX (env.curveClicks 0)).map Point.x))
          maxT := .fin (qListMax ((sortByX (env.curveClicks 0)).map Point.x))
          minV := .fin (qListMin
            ((sortByX (env.curveClicks 0)).map (fun q => -q.y)))
          maxV := .fin (qListMax
            ((sortByX (env.curveClicks 0)).map (fun q => -q.y))) }) := by
    rw [captureAll, show capture1 (env.curveClicks 0) =
      .ok ((sortByX (env.curveClicks 0)).map Point.x,
        (sortByX (env.curveClicks 0)).map (fun q => -q.y)) from by
          rw [hc]; rfl]
    rfl
  rw [ui_draw, show checkFilename (.pystr f) = .ok () from rfl]
  simp only []
  rw [show checkKeys (.pystr k) = .ok [k] from rfl]
  simp only []
  rw [show checkUnits .pynone [k] = .ok none from rfl]
  simp only []
  rw [show loadImage (.pystr f) env = .ok (env.files f) from rfl]
  simp only []
  rw [hcap]
  rfl

/-- C9: with a degenerate calibration (the two clicks of a calibration
coinciding along the calibrated axis, zero pixel span), the rescale division
by the zero span is not guarded and no error is raised: a coincident pair of
value-calibration clicks makes every value of every returned channel
non-finite (infinite or NaN, from the scaling of source lines 202-208), a
coincident pair of time-calibration clicks makes every returned time
non-finite (from the scaling of source lines 218-221), and ui_draw still
returns a populated container (shown for any single-curve call with a
non-empty capture). -/
theorem uiDraw_degenerate_calibration (filename : PyVal) (tr vr : ℚ × ℚ)
    (data_keys data_units : PyVal) (env : Env) (es : List Effect)
    (ts : TimeSeries) (keys : List String)
    (hk : checkKeys data_keys = .ok keys) (hnd : keys.Nodup)
    (h : ui_draw filename (some tr) (some vr) data_keys data_units env =
      (es, .ok ts)) :
    (∀ f2 k2 : String, env.curveClicks 0 ≠ [] →
      ∃ es2 ts2, ui_draw (.pystr f2) (some tr) (some vr) (.pystr k2) .pynone
        env = (es2, .ok ts2) ∧ ts2.data ≠ [] ∧ ts2.time ≠ []) ∧
    ((env.valueCalClicks.1).y = (env.valueCalClicks.2).y →
      ∀ ch ∈ ts.data, ∀ v ∈ (ch.2 : List FVal), v.isFinite = false) ∧
    ((env.timeCalClicks.1).x = (env.timeCalClicks.2).x →
      ∀ v ∈ ts.time, v.isFinite = false) := by
  obtain ⟨units, tr2, _, _, htime, _, _, _, hdata⟩ :=
    ui_draw_ok_char filename (some tr) (some vr) data_keys data_units env
      es ts keys hk hnd h
  refine ⟨?_, ?_, ?_⟩
  · intro f2 k2 hclicks
    obtain ⟨p, ps, hc⟩ := List.exists_cons_of_ne_nil hclicks
    refine ⟨_, _, ui_draw_single_eq f2 k2 tr vr env p ps hc, by simp, ?_⟩
    show (dedupSort (((sortByX (env.curveClicks 0)).map Point.x) ++ [])).map
      _ ≠ []
    rw [ne_eq, List.map_eq_nil_iff]
    apply dedupSort_ne_nil
    simp only [List.append_nil, ne_eq, List.map_eq_nil_iff]
    rw [hc]
    show insertByX p (sortByX ps) ≠ []
    exact insertByX_ne_nil p (sortByX ps)
  · intro hdeg ch hch v hv
    rw [hdata vr rfl] at hch
    obtain ⟨e, _, he⟩ := List.mem_map.mp hch
    subst he
    obtain ⟨t, _, hvt⟩ := List.mem_map.mp hv
    rw [← hvt]
    apply interp1_notFinite
    intro e2 he2
    obtain ⟨t0, v0⟩ := e2
    have hv0 := (List.of_mem_zip he2).2
    obtain ⟨w, _, hw⟩ := List.mem_map.mp hv0
    show v0.isFinite = false
    rw [← hw]
    show (rescale (.fin w)
      (.fin (min (-(env.valueCalClicks.1).y) (-(env.valueCalClicks.2).y)))
      (.fin (max (-(env.valueCalClicks.1).y) (-(env.valueCalClicks.2).y)))
      (.fin vr.1) (.fin vr.2)).isFinite = false
    rw [hdeg, min_self, max_self]
    exact rescale_degenerate w (-(env.valueCalClicks.2).y) vr.1 vr.2
  · intro hdeg v hv
    rw [htime] at hv
    obtain ⟨t, _, hvt⟩ := List.mem_map.mp hv
    rw [← hvt]
    show (rescale (.fin t)
      (.fin (min (env.timeCalClicks.1).x (env.timeCalClicks.2).x))
      (.fin (max (env.timeCalClicks.1).x (env.timeCalClicks.2).x))
      (.fin tr2.1) (.fin tr2.2)).isFinite = false
    rw [hdeg, min_self, max_self]
    exact rescale_degenerate t (env.timeCalClicks.2).x tr2.1 tr2.2

theorem uiDraw_degenerate_calibration_witness :
    checkKeys (.pystr "a") = .ok ["a"] ∧
    (["a"] : List String).Nodup ∧
    (envE.valueCalClicks.1).y = (envE.valueCalClicks.2).y ∧
    (envE.timeCalClicks.1).x = (envE.timeCalClicks.2).x ∧
    envE.curveClicks 0 ≠ [] ∧
    ∃ es ts, ui_draw (.pystr "f") (some (0, 1)) (some (0, 1)) (.pystr "a")
        .pynone envE = (es, .ok ts) ∧ ts.data ≠ [] ∧ ts.time ≠ [] ∧
      (∀ ch ∈ ts.data, ∀ v ∈ (ch.2 : List FVal), v.isFinite = false) ∧
      (∀ v ∈ ts.time, v.isFinite = false) := by
  have hrun : ui_draw (.pystr "f") (some (0, 1)) (some (0, 1)) (.pystr "a")
      .pynone envE =
      ([Effect.figureOpened, Effect.imageShown, Effect.curveCaptured "a",
        Effect.calibrationCaptured, Effect.calibrationCaptured,
        Effect.figureClosed],
       .ok { time := [.inf, .inf, .inf]
             data := [("a", [.ninf, .nan, .inf])]
             info := [] }) := by decide
  obtain ⟨hex, hval, htim⟩ := uiDraw_degenerate_calibration (.pystr "f")
    (0, 1) (0, 1) (.pystr "a") .pynone envE _ _ ["a"]
    (by decide) (by decide) hrun
  exact ⟨by decide, by decide, by decide, by decide, by decide,
    _, _, hrun, by decide, by decide, hval (by decide), htim (by decide)⟩

/-- C1 counterexample: with a repeated data key the Python dicts keep only
the last capture session for that key, so the returned time base omits the
first session's x coordinates and is not the union over all captured
curves. -/
theorem uiDraw_shared_time_base_cex :
    ∃ es ts, ui_draw (.pystr "f") (some (0, 1)) (some (0, 1))
        (.pylist [.pystr "a", .pystr "a"]) .pynone envA = (es, .ok ts) ∧
      ts.time ≠ (dedupSort (sessionXs envA.curveClicks ["a", "a"] 0)).map
        (fun t => rescale (.fin t)
          (.fin (min envA.timeCalClicks.1.x envA.timeCalClicks.2.x))
          (.fin (max envA.timeCalClicks.1.x envA.timeCalClicks.2.x))
          (.fin (0 : ℚ)) (.fin (1 : ℚ))) :=
  ⟨[Effect.figureOpened, Effect.imageShown, Effect.curveCaptured "a",
    Effect.curveCaptured "a", Effect.calibrationCaptured,
    Effect.calibrationCaptured, Effect.figureClosed],
   { time := [.fin (mkRat 1 4), .fin (mkRat 3 4)]
     data := [("a", [.fin (mkRat 1 4), .fin (mkRat 3 4)])]
     info := [] },
   by decide, by decide⟩

/-- C4 counterexample: with data_keys = ["a", "a"] the call succeeds but
returns a single channel for the two entries (dict overwrite), so the
container does not have one channel per entry of data_keys. -/
theorem uiDraw_one_channel_per_key_cex :
    ∃ es ts, ui_draw (.pystr "g") (some (0, 1)) (some (0, 1))
        (.pylist [.pystr "a", .pystr "a"]) .pynone envA = (es, .ok ts) ∧
      ts.data.length ≠ ([PyVal.pystr "a", PyVal.pystr "a"] : List PyVal).length ∧
      ts.data.map Prod.fst ≠ ["a", "a"] :=
  ⟨[Effect.figureOpened, Effect.imageShown, Effect.curveCaptured "a",
    Effect.curveCaptured "a", Effect.calibrationCaptured,
    Effect.calibrationCaptured, Effect.figureClosed],
   { time := [.fin (mkRat 1 4), .fin (mkRat 3 4)]
     data := [("a", [.fin (mkRat 1 4), .fin (mkRat 3 4)])]
     info := [] },
   by decide, by decide, by decide⟩

end KtkExt
